import Mathlib

/-!
Verification of the GO-http-server repository: a shallow embedding of the
custom exact-match router (`pkg/router/router.go`), the request context
helper (`pkg/httpcontext/httpcontext.go`), and the application handlers
(`pkg/handlers/handlers.go`), together with proofs of the behavioural
claims made by the specification.

Modelling conventions:
* Go maps (`map[string]V`) become association lists with key-update and
  key-lookup operations (`updateA` / `lookupA`); Go map lookup that may
  miss returns `Option`.
* `http.ResponseWriter` becomes `ResponseWriter`, a record of the live
  header map, every `WriteHeader` call made (the first one is the
  effective status, later ones are superfluous and ignored, exactly as
  `net/http` ignores them), the headers snapshot taken when the status
  line is written, and the body written so far.
* Handlers are a type parameter `H`; `app : H → Context → ResponseWriter`
  interprets a handler value as its effect on the response sink.
  `Router.ServeHTTP` additionally returns the list of lock/invoke events
  in the order the Go statements execute them (`RLock` on entry, the
  deferred `RUnlock` when the function returns), so that claims about
  lock discipline and about which handlers run are statements about that
  trace.
* `encoding/json` is modelled by an executable encoder from Go values to
  JSON text (map keys sorted, HTML-escaping as in the default encoder, a
  trailing newline from `Encoder.Encode`) and an executable decoder; the
  round-trip law is proved for the whole grammar.
-/

/-! ## Association lists: the model of Go maps -/

/-- Go map read `m[k]` in comma-ok form: the value, if the key is present. -/
def lookupA {β : Type} (k : String) : List (String × β) → Option β
  | [] => none
  | (k', v) :: rest => if k' = k then some v else lookupA k rest

/-- Go map write `m[k] = v`: replace the binding if the key is present,
otherwise add it. -/
def updateA {β : Type} (k : String) (v : β) : List (String × β) → List (String × β)
  | [] => [(k, v)]
  | (k', v') :: rest => if k' = k then (k, v) :: rest else (k', v') :: updateA k v rest

theorem lookupA_updateA_self {β : Type} (k : String) (v : β) :
    ∀ (m : List (String × β)), lookupA k (updateA k v m) = some v := by
  intro m
  induction m with
  | nil => simp [lookupA, updateA]
  | cons p rest ih =>
      obtain ⟨k', v'⟩ := p
      by_cases h : k' = k
      · simp [lookupA, updateA, h]
      · simp [lookupA, updateA, h, ih]

theorem lookupA_updateA_other {β : Type} {k k₂ : String} (v : β) (h : k ≠ k₂) :
    ∀ (m : List (String × β)), lookupA k₂ (updateA k v m) = lookupA k₂ m := by
  intro m
  induction m with
  | nil => simp [lookupA, updateA, h]
  | cons p rest ih =>
      obtain ⟨k', v'⟩ := p
      by_cases hk : k' = k
      · subst hk
        simp [lookupA, updateA, h]
      · by_cases hk2 : k' = k₂ <;>
          simp [lookupA, updateA, hk, hk2, ih, Ne.symm h]

/-! ## The response sink: `http.ResponseWriter` -/

/-- The state of an HTTP response sink.  `statusCalls` records every
`WriteHeader` invocation in order; `net/http` honours only the first one
(later calls are "superfluous" and ignored), so the effective status is the
head.  `sentHeaders` is the header map as it stood when the status line was
written: header mutations made after that point do not reach the wire. -/
structure ResponseWriter where
  headers : List (String × String)
  statusCalls : List Int
  sentHeaders : List (String × String)
  body : String

/-- A sink on which nothing has been written yet. -/
def ResponseWriter.fresh : ResponseWriter :=
  { headers := [], statusCalls := [], sentHeaders := [], body := "" }

/-- `w.Header().Set(k, v)`. -/
def ResponseWriter.setHeader (w : ResponseWriter) (k v : String) : ResponseWriter :=
  { w with headers := updateA k v w.headers }

/-- `w.Header().Del(k)` (modelled as binding removal). -/
def ResponseWriter.delHeader (w : ResponseWriter) (k : String) : ResponseWriter :=
  { w with headers := w.headers.filter (fun p => p.1 ≠ k) }

/-- `w.WriteHeader(code)`: the first call snapshots the headers and fixes the
status; any later call is recorded but has no effect on the response. -/
def ResponseWriter.writeHeader (w : ResponseWriter) (code : Int) : ResponseWriter :=
  match w.statusCalls with
  | [] => { w with statusCalls := [code], sentHeaders := w.headers }
  | _ :: _ => { w with statusCalls := w.statusCalls ++ [code] }

/-- `w.Write(bytes)`: an implicit `WriteHeader(200)` if the status line has
not been written yet, then the bytes are appended to the body. -/
def ResponseWriter.write (w : ResponseWriter) (s : String) : ResponseWriter :=
  let w' := match w.statusCalls with
    | [] => w.writeHeader 200
    | _ :: _ => w
  { w' with body := w'.body ++ s }

/-- The status the client observes: the first `WriteHeader` argument, or 200
if the handler never wrote one. -/
def ResponseWriter.effStatus (w : ResponseWriter) : Int :=
  match w.statusCalls with
  | [] => 200
  | c :: _ => c

/-- The value of header `k` as sent on the wire: from the snapshot if the
status line was written, otherwise from the live map. -/
def ResponseWriter.wireHeader (w : ResponseWriter) (k : String) : Option String :=
  match w.statusCalls with
  | [] => lookupA k w.headers
  | _ :: _ => lookupA k w.sentHeaders

/-- `http.Error(w, msg, code)`: delete Content-Length, set a plain-text
content type and `X-Content-Type-Options`, write the status line, then the
message followed by a newline. -/
def httpError (w : ResponseWriter) (msg : String) (code : Int) : ResponseWriter :=
  ((((w.delHeader "Content-Length").setHeader "Content-Type"
      "text/plain; charset=utf-8").setHeader "X-Content-Type-Options"
      "nosniff").writeHeader code).write (msg ++ "\n")

/-- `http.NotFound(w, req)` = `http.Error(w, "404 page not found", 404)`. -/
def httpNotFound (w : ResponseWriter) : ResponseWriter :=
  httpError w "404 page not found" 404

/-! ## The request and the request context -/

/-- The parts of `*http.Request` the router consults: `req.Method` and
`req.URL.Path`. -/
structure Request where
  method : String
  path : String
deriving DecidableEq

/-- `httpcontext.Context`: the per-request pairing of the response sink with
the inbound request. -/
structure Context where
  Writer : ResponseWriter
  Request : Request

/-! ## The router -/

/-- An event observable during `Router.ServeHTTP`: taking the read lock,
invoking a handler, releasing the read lock.  The list of events is in
program order, so lock-discipline claims are statements about it. -/
inductive RouterEvent (H : Type) where
  | rlock : RouterEvent H
  | invoke (h : H) : RouterEvent H
  | runlock : RouterEvent H
deriving DecidableEq

/-- `router.Router`: the route table `map[method]map[path]handler`.
The mutex is not part of the functional state; its acquisition and release
show up as events of `ServeHTTP`. -/
structure Router (H : Type) where
  routes : List (String × List (String × H))

/-- `router.New()`. -/
def Router.New {H : Type} : Router H := { routes := [] }

/-- `Router.addRoute`: create the per-method map if absent, then insert or
overwrite the path binding.  Total; nothing is validated and no error is
returned. -/
def Router.addRoute {H : Type} (r : Router H) (method path : String) (handler : H) :
    Router H :=
  let pathMap := match lookupA method r.routes with
    | none => []
    | some m => m
  { routes := updateA method (updateA path handler pathMap) r.routes }

/-- `Router.GET`. -/
def Router.GET {H : Type} (r : Router H) (path : String) (handler : H) : Router H :=
  r.addRoute "GET" path handler

/-- `Router.POST`. -/
def Router.POST {H : Type} (r : Router H) (path : String) (handler : H) : Router H :=
  r.addRoute "POST" path handler

/-- The two-level route lookup `ServeHTTP` performs: the method map first,
then the exact path. -/
def Router.findHandler {H : Type} (r : Router H) (req : Request) : Option H :=
  match lookupA req.method r.routes with
  | none => none
  | some pathHandlers => lookupA req.path pathHandlers

/-- The result of one dispatch: the router state when `ServeHTTP` returns,
the response sink, and the ordered event trace. -/
structure DispatchResult (H : Type) where
  router : Router H
  writer : ResponseWriter
  events : List (RouterEvent H)

/-- `Router.ServeHTTP`: take the read lock (released by `defer` when the
function returns), look up the method map, then the path; on either miss
respond with `http.NotFound`; on a hit build a `Context` around the sink and
the request and call the handler with it.  The handler call is synchronous:
the writer returned is the handler's completed output.  The route table is
never written. -/
def Router.ServeHTTP {H : Type} (r : Router H) (app : H → Context → ResponseWriter)
    (w : ResponseWriter) (req : Request) : DispatchResult H :=
  match lookupA req.method r.routes with
  | none =>
      { router := r, writer := httpNotFound w
        events := [.rlock, .runlock] }
  | some pathHandlers =>
      match lookupA req.path pathHandlers with
      | none =>
          { router := r, writer := httpNotFound w
            events := [.rlock, .runlock] }
      | some handler =>
          let ctx : Context := { Writer := w, Request := req }
          { router := r, writer := app handler ctx
            events := [.rlock, .invoke handler, .runlock] }

/-- The handlers a dispatch invoked, in order. -/
def invokedHandlers {H : Type} (events : List (RouterEvent H)) : List H :=
  events.filterMap (fun e => match e with | .invoke h => some h | _ => none)

/-- The claim "the read lock is released before the handler is invoked",
read off an event trace: some `RUnlock` happens strictly before some
handler invocation. -/
def unlockBeforeInvoke {H : Type} : List (RouterEvent H) → Bool
  | [] => false
  | .runlock :: rest => rest.any (fun e => match e with | .invoke _ => true | _ => false)
  | _ :: rest => unlockBeforeInvoke rest

/-! ## JSON documents

`Json` is the abstract syntax of a JSON document; `jRender` prints it the
way Go's `encoding/json` does (object keys already sorted by the encoder,
HTML-relevant characters escaped, lowercase hex in `\u` escapes), and
`parseVal`/`decodeJson` is an executable JSON reader used as the model of
deserialization. -/

inductive Json where
  | null : Json
  | bool (b : Bool) : Json
  | num (n : Int) : Json
  | str (s : String) : Json
  | arr (xs : List Json) : Json
  | obj (fields : List (String × Json)) : Json

/-- The lowercase hexadecimal digit for `d < 16`. -/
def hexDigitCh (d : Nat) : Char :=
  if d < 10 then Char.ofNat (48 + d) else Char.ofNat (87 + d)

/-- How Go's encoder writes one character of a string value: short escapes
for quote, backslash, newline, carriage return and tab; `\u00xx` for the
remaining control characters and (HTML escaping, on by default in
`json.Encoder`) for `<`, `>` and `&`; ` `/` ` for the two
line-separator code points; every other character is written as itself. -/
def jEscapeChar (c : Char) : List Char :=
  if c = '"' then ['\\', '"']
  else if c = '\\' then ['\\', '\\']
  else if c = '\n' then ['\\', 'n']
  else if c = '\r' then ['\\', 'r']
  else if c = '\t' then ['\\', 't']
  else if c = '<' then ['\\', 'u', '0', '0', '3', 'c']
  else if c = '>' then ['\\', 'u', '0', '0', '3', 'e']
  else if c = '&' then ['\\', 'u', '0', '0', '2', '6']
  else if c.toNat < 32 then
    ['\\', 'u', '0', '0', hexDigitCh (c.toNat / 16), hexDigitCh (c.toNat % 16)]
  else if c.toNat = 8232 then ['\\', 'u', '2', '0', '2', '8']
  else if c.toNat = 8233 then ['\\', 'u', '2', '0', '2', '9']
  else [c]

/-- A rendered string literal: quote, escaped characters, quote. -/
def jString (s : String) : List Char :=
  '"' :: (s.data.flatMap jEscapeChar ++ ['"'])

/-- The decimal digit character for `d < 10`. -/
def digitCh (d : Nat) : Char := Char.ofNat (48 + d)

/-- The decimal digits of a natural number, most significant first. -/
def natChars (n : Nat) : List Char :=
  if n = 0 then ['0'] else ((Nat.digits 10 n).map digitCh).reverse

/-- A rendered integer: optional minus sign, then decimal digits. -/
def intChars (i : Int) : List Char :=
  if i < 0 then '-' :: natChars i.natAbs else natChars i.natAbs

mutual
/-- Render a JSON document as Go's encoder prints it (no whitespace). -/
def jRender : Json → List Char
  | .null => "null".data
  | .bool true => "true".data
  | .bool false => "false".data
  | .num i => intChars i
  | .str s => jString s
  | .arr xs => '[' :: jElems xs
  | .obj fs => '{' :: jFields fs

/-- The elements of an array, comma-separated, with the closing bracket. -/
def jElems : List Json → List Char
  | [] => [']']
  | x :: xs => jRender x ++ jElemsMore xs

/-- After one array element: the closing bracket, or a comma and the rest. -/
def jElemsMore : List Json → List Char
  | [] => [']']
  | x :: xs => ',' :: (jRender x ++ jElemsMore xs)

/-- The members of an object, comma-separated, with the closing brace. -/
def jFields : List (String × Json) → List Char
  | [] => ['}']
  | (k, v) :: fs => jString k ++ ':' :: (jRender v ++ jFieldsMore fs)

/-- After one object member: the closing brace, or a comma and the rest. -/
def jFieldsMore : List (String × Json) → List Char
  | [] => ['}']
  | (k, v) :: fs => ',' :: (jString k ++ ':' :: (jRender v ++ jFieldsMore fs))
end

/-- The numeric value of a hexadecimal digit character. -/
def hexNib (c : Char) : Option Nat :=
  if 48 ≤ c.toNat ∧ c.toNat ≤ 57 then some (c.toNat - 48)
  else if 97 ≤ c.toNat ∧ c.toNat ≤ 102 then some (c.toNat - 87)
  else if 65 ≤ c.toNat ∧ c.toNat ≤ 70 then some (c.toNat - 55)
  else none

/-- The character denoted by a short escape `\x`. -/
def escShort (e : Char) : Option Char :=
  if e = 'n' then some '\n'
  else if e = 'r' then some '\r'
  else if e = 't' then some '\t'
  else if e = '/' then some '/'
  else if e = 'b' then some (Char.ofNat 8)
  else if e = 'f' then some (Char.ofNat 12)
  else none

/-- Read the body of a string literal after the opening quote; produce the
unescaped characters and the input after the closing quote. -/
def parseStrBody : List Char → Option (List Char × List Char)
  | [] => none
  | c :: r =>
    if c = '"' then some ([], r)
    else if c = '\\' then
      match r with
      | [] => none
      | e :: r2 =>
        if e = '"' then (parseStrBody r2).map (fun p => ('"' :: p.1, p.2))
        else if e = '\\' then (parseStrBody r2).map (fun p => ('\\' :: p.1, p.2))
        else if e = 'u' then
          match r2 with
          | a :: b :: c2 :: d :: r3 =>
            match hexNib a, hexNib b, hexNib c2, hexNib d with
            | some x, some y, some z, some t =>
                (parseStrBody r3).map
                  (fun p => (Char.ofNat (((x * 16 + y) * 16 + z) * 16 + t) :: p.1, p.2))
            | _, _, _, _ => none
          | _ => none
        else
          match escShort e with
          | some ch => (parseStrBody r2).map (fun p => (ch :: p.1, p.2))
          | none => none
    else (parseStrBody r).map (fun p => (c :: p.1, p.2))

/-- Require the given characters at the head of the input. -/
def expectChars : List Char → List Char → Option (List Char)
  | [], cs => some cs
  | k :: kt, c :: ct => if c = k then expectChars kt ct else none
  | _ :: _, [] => none

/-- The numeric value of a run of decimal digit characters. -/
def natVal (ds : List Char) : Nat :=
  ds.foldl (fun a c => a * 10 + (c.toNat - 48)) 0

/-- Read a nonempty run of decimal digits as a natural number. -/
def parseDigits (cs : List Char) : Option (Nat × List Char) :=
  match cs.takeWhile Char.isDigit with
  | [] => none
  | d :: ds => some (natVal (d :: ds), cs.dropWhile Char.isDigit)

mutual
/-- Read one JSON value.  `fuel` only bounds the recursion depth; every
recursive call spends one unit, and `decodeJson` supplies more fuel than any
input can consume. -/
def parseVal : Nat → List Char → Option (Json × List Char)
  | 0, _ => none
  | _ + 1, [] => none
  | fuel + 1, c :: r =>
    if c = 'n' then (expectChars ['u', 'l', 'l'] r).map (fun r' => (.null, r'))
    else if c = 't' then (expectChars ['r', 'u', 'e'] r).map (fun r' => (.bool true, r'))
    else if c = 'f' then (expectChars ['a', 'l', 's', 'e'] r).map (fun r' => (.bool false, r'))
    else if c = '"' then (parseStrBody r).map (fun p => (.str (String.mk p.1), p.2))
    else if c = '[' then
      match r with
      | [] => none
      | c2 :: r2 =>
        if c2 = ']' then some (.arr [], r2)
        else (parseItems fuel (c2 :: r2)).map (fun p => (.arr p.1, p.2))
    else if c = '{' then
      match r with
      | [] => none
      | c2 :: r2 =>
        if c2 = '}' then some (.obj [], r2)
        else (parseMems fuel (c2 :: r2)).map (fun p => (.obj p.1, p.2))
    else if c = '-' then (parseDigits r).map (fun p => (.num (-(p.1 : Int)), p.2))
    else if c.isDigit then (parseDigits (c :: r)).map (fun p => (.num (p.1 : Int), p.2))
    else none

/-- Read the elements of a nonempty array, ending at `]`. -/
def parseItems : Nat → List Char → Option (List Json × List Char)
  | 0, _ => none
  | fuel + 1, cs =>
    match parseVal fuel cs with
    | none => none
    | some (j, r) =>
      match r with
      | ',' :: r' => (parseItems fuel r').map (fun p => (j :: p.1, p.2))
      | ']' :: r' => some ([j], r')
      | _ => none

/-- Read the members of a nonempty object, ending at `}`. -/
def parseMems : Nat → List Char → Option (List (String × Json) × List Char)
  | 0, _ => none
  | fuel + 1, cs =>
    match cs with
    | '"' :: r =>
      match parseStrBody r with
      | none => none
      | some (k, r1) =>
        match r1 with
        | ':' :: r2 =>
          match parseVal fuel r2 with
          | none => none
          | some (v, r3) =>
            match r3 with
            | ',' :: r4 => (parseMems fuel r4).map (fun p => ((String.mk k, v) :: p.1, p.2))
            | '}' :: r4 => some ([(String.mk k, v)], r4)
            | _ => none
        | _ => none
    | _ => none
end

/-- JSON whitespace. -/
def isWsCh (c : Char) : Bool := c = ' ' || c = '\t' || c = '\n' || c = '\r'

/-- Deserialize a complete JSON document; trailing whitespace (such as the
newline `json.Encoder.Encode` appends) is accepted, anything else rejected. -/
def decodeJson (s : String) : Option Json :=
  match parseVal (s.data.length + 1) s.data with
  | some (j, rest) => if rest.all isWsCh then some j else none
  | none => none

/-! ## Go payload values and `encoding/json` -/

/-- A Go value handed to `Context.JSON` (the `interface{}` payload):
`nil`, booleans, integers, strings, slices, `map[string]...` (also covering
structs with tagged fields), and `unsupported`, standing for any value
`json.Marshal` rejects (a channel, a function, ...). -/
inductive GoValue where
  | null : GoValue
  | bool (b : Bool) : GoValue
  | int (n : Int) : GoValue
  | str (s : String) : GoValue
  | arr (xs : List GoValue) : GoValue
  | obj (fields : List (String × GoValue)) : GoValue
  | unsupported : GoValue

/-- Byte-order comparison of strings as character lists (UTF-8 byte order
and code-point order agree), the order in which Go's encoder emits map
keys. -/
def strLeCh : List Char → List Char → Bool
  | [], _ => true
  | _ :: _, [] => false
  | a :: as, b :: bs =>
    if a.toNat < b.toNat then true
    else if b.toNat < a.toNat then false
    else strLeCh as bs

/-- Ordered insertion of one binding by key. -/
def insertByKey {β : Type} (p : String × β) : List (String × β) → List (String × β)
  | [] => [p]
  | q :: rest => if strLeCh p.1.data q.1.data then p :: q :: rest else q :: insertByKey p rest

/-- Insertion sort of an association list by key: Go's encoder writes map
members in sorted key order. -/
def sortByKey {β : Type} : List (String × β) → List (String × β)
  | [] => []
  | p :: rest => insertByKey p (sortByKey rest)

mutual
/-- `json.Marshal` on a Go value, as a JSON document: fails exactly on
values containing `unsupported`; map members come out sorted by key. -/
def encodeGo : GoValue → Option Json
  | .null => some .null
  | .bool b => some (.bool b)
  | .int n => some (.num n)
  | .str s => some (.str s)
  | .arr xs => (encodeGoList xs).map Json.arr
  | .obj fs => (encodeGoFields fs).map (fun l => Json.obj (sortByKey l))
  | .unsupported => none

/-- Elementwise encoding of a slice. -/
def encodeGoList : List GoValue → Option (List Json)
  | [] => some []
  | x :: xs =>
    match encodeGo x, encodeGoList xs with
    | some j, some js => some (j :: js)
    | _, _ => none

/-- Memberwise encoding of a map's bindings (sorting happens at the
`encodeGo` call site; for the key-unique lists Go maps produce, sorting
before or after memberwise encoding yields the same document). -/
def encodeGoFields : List (String × GoValue) → Option (List (String × Json))
  | [] => some []
  | (k, v) :: fs =>
    match encodeGo v, encodeGoFields fs with
    | some j, some l => some ((k, j) :: l)
    | _, _ => none
end

mutual
/-- Reading a JSON document back into a Go value. -/
def decodeGo : Json → GoValue
  | .null => .null
  | .bool b => .bool b
  | .num n => .int n
  | .str s => .str s
  | .arr js => .arr (decodeGoList js)
  | .obj l => .obj (decodeGoFields l)

/-- Elementwise decoding. -/
def decodeGoList : List Json → List GoValue
  | [] => []
  | j :: js => decodeGo j :: decodeGoList js

/-- Memberwise decoding. -/
def decodeGoFields : List (String × Json) → List (String × GoValue)
  | [] => []
  | (k, j) :: l => (k, decodeGo j) :: decodeGoFields l
end

mutual
/-- `reflect.DeepEqual` on Go values: structural equality, except that maps
compare as finite maps — same number of bindings, and every binding of the
left map is present in the right with a deep-equal value. -/
def deepEqual : GoValue → GoValue → Bool
  | .null, .null => true
  | .bool a, .bool b => a == b
  | .int a, .int b => a == b
  | .str a, .str b => a == b
  | .arr xs, .arr ys => deepEqualList xs ys
  | .obj fs, .obj gs => fs.length == gs.length && deepEqualFields fs gs
  | _, _ => false

/-- Pointwise deep equality of slices. -/
def deepEqualList : List GoValue → List GoValue → Bool
  | [], [] => true
  | x :: xs, y :: ys => deepEqual x y && deepEqualList xs ys
  | _, _ => false

/-- Every binding on the left looks up deep-equal on the right. -/
def deepEqualFields : List (String × GoValue) → List (String × GoValue) → Bool
  | [], _ => true
  | (k, v) :: fs, gs =>
    (match lookupA k gs with
     | some w => deepEqual v w
     | none => false) && deepEqualFields fs gs
end

/-- Key uniqueness of an association list, as Go map snapshots always have. -/
def nodupKeys {β : Type} : List (String × β) → Bool
  | [] => true
  | (k, _) :: rest => !(rest.any (fun q => q.1 = k)) && nodupKeys rest

mutual
/-- Well-formedness of a payload as a snapshot of Go data: object member
lists never repeat a key (a Go map cannot). -/
def wfGo : GoValue → Bool
  | .arr xs => wfGoList xs
  | .obj fs => nodupKeys fs && wfGoFields fs
  | _ => true

/-- Well-formedness of every element. -/
def wfGoList : List GoValue → Bool
  | [] => true
  | x :: xs => wfGo x && wfGoList xs

/-- Well-formedness of every member value. -/
def wfGoFields : List (String × GoValue) → Bool
  | [] => true
  | (_, v) :: fs => wfGo v && wfGoFields fs
end

/-! ## `Context.JSON` and `Context.Status` -/

/-- What `json.NewEncoder(w).Encode(data)` writes on success: the document
followed by a newline.  `none` when marshalling fails (nothing is written
then: the encoder buffers the document before touching the writer). -/
def encodeBody (data : GoValue) : Option String :=
  (encodeGo data).map (fun j => String.mk (jRender j ++ ['\n']))

/-- `Context.JSON(statusCode, data)`: set the JSON content type, write the
status line, then encode the payload onto the writer; if encoding fails,
report via `http.Error(w, "Error encoding JSON response", 500)` on the same
sink — whose `WriteHeader(500)` is superfluous by then, the status line
having already been written. -/
def Context.JSON (c : Context) (statusCode : Int) (data : GoValue) : ResponseWriter :=
  let w := c.Writer.setHeader "Content-Type" "application/json"
  let w := w.writeHeader statusCode
  match encodeBody data with
  | some s => w.write s
  | none => httpError w "Error encoding JSON response" 500

/-- `Context.Status(statusCode)`: status line only, no body. -/
def Context.Status (c : Context) (statusCode : Int) : ResponseWriter :=
  c.Writer.writeHeader statusCode

/-! ## The application: `pkg/handlers` wired as in `handlers.go` -/

/-- `router.HandlerFunc`, concretely: a handler reads the request context
and produces the final state of the response sink. -/
def HandlerFunc : Type := Context → ResponseWriter

/-- Interpretation of concrete handlers: invoking one is applying it. -/
def applyHandler (h : HandlerFunc) (c : Context) : ResponseWriter := h c

/-- `handlers.HealthCheckHandler`: 200 with
`map[string]string{"status": "ok", "service": "HTTPGolang_Server"}`. -/
def HealthCheckHandler : HandlerFunc := fun c =>
  c.JSON 200 (.obj [("status", .str "ok"), ("service", .str "HTTPGolang_Server")])

/-- `handlers.GetUsersHandler`: 200 with the static two-user slice. -/
def GetUsersHandler : HandlerFunc := fun c =>
  c.JSON 200 (.arr
    [.obj [("id", .int 1), ("name", .str "Hanzala")],
     .obj [("id", .int 2), ("name", .str "Areeb")]])

/-- `handlers.CreateUserHandler`: 201 with the stub success message. -/
def CreateUserHandler : HandlerFunc := fun c =>
  c.JSON 201 (.obj [("status", .str "user created successfully")])

/-- `handlers.RegisterRoutes`. -/
def RegisterRoutes (r : Router HandlerFunc) : Router HandlerFunc :=
  ((r.GET "/health" HealthCheckHandler).GET "/users" GetUsersHandler).POST
    "/users" CreateUserHandler

/-- The application router `main` builds: `RegisterRoutes(router.New())`. -/
def appRouter : Router HandlerFunc := RegisterRoutes Router.New

/-- Interpretation used by the concrete router scenarios below: handlers are
numbered, and each one answers with a bare 200 status (as the repository's
router test handler does). -/
def demoApp : Nat → Context → ResponseWriter := fun _ c => c.Status 200

/-- An input that cannot extend a rendered number: empty, or starting with
a non-digit.  Inside a rendered document every character following a number
is `,`, `]`, `}` or the trailing newline, so this always holds. -/
def noDigitHead : List Char → Bool
  | [] => true
  | c :: _ => !c.isDigit

/-- The JSON document `/health` answers with: the health map with its keys
in the sorted order Go's encoder emits. -/
def healthJson : Json :=
  .obj [("service", .str "HTTPGolang_Server"), ("status", .str "ok")]

/-- The payload `HealthCheckHandler` passes to `Context.JSON`. -/
def healthPayload : GoValue :=
  .obj [("status", .str "ok"), ("service", .str "HTTPGolang_Server")]

/-! ## Router lemmas -/

theorem findHandler_addRoute_self {H : Type} (r : Router H) (m p : String) (h : H) :
    (r.addRoute m p h).findHandler ⟨m, p⟩ = some h := by
  unfold Router.addRoute Router.findHandler
  cases hl : lookupA m r.routes <;>
    simp [hl, lookupA_updateA_self]

theorem ServeHTTP_hit {H : Type} (r : Router H) (app : H → Context → ResponseWriter)
    (w : ResponseWriter) (req : Request) (h : H)
    (hreg : r.findHandler req = some h) :
    r.ServeHTTP app w req =
      { router := r, writer := app h { Writer := w, Request := req }
        events := [.rlock, .invoke h, .runlock] } := by
  unfold Router.findHandler at hreg
  cases hm : lookupA req.method r.routes with
  | none => rw [hm] at hreg; exact absurd hreg (by simp)
  | some pm =>
      rw [hm] at hreg
      simp only at hreg
      simp [Router.ServeHTTP, hm, hreg]

theorem ServeHTTP_miss {H : Type} (r : Router H) (app : H → Context → ResponseWriter)
    (w : ResponseWriter) (req : Request)
    (hmiss : r.findHandler req = none) :
    r.ServeHTTP app w req =
      { router := r, writer := httpNotFound w, events := [.rlock, .runlock] } := by
  unfold Router.findHandler at hmiss
  cases hm : lookupA req.method r.routes with
  | none => simp [Router.ServeHTTP, hm]
  | some pm =>
      rw [hm] at hmiss
      simp only at hmiss
      simp [Router.ServeHTTP, hm, hmiss]

theorem httpNotFound_effStatus (w : ResponseWriter) (hw : w.statusCalls = []) :
    (httpNotFound w).effStatus = 404 := by
  simp [httpNotFound, httpError, ResponseWriter.delHeader, ResponseWriter.setHeader,
    ResponseWriter.writeHeader, ResponseWriter.write, ResponseWriter.effStatus, hw]

/-! ## The claims -/

/-- C1: with a handler `h` registered under `(method, path)`, dispatching a
request whose method and path equal that pair invokes `h` exactly once and
no other handler, and the writer `Dispatch` returns is exactly the writer
`h` produced — the call is synchronous, so `Dispatch` returns only after
`h` does. -/
theorem C1_dispatch_invokes_exactly_registered {H : Type}
    (r : Router H) (app : H → Context → ResponseWriter) (w : ResponseWriter)
    (method path : String) (h : H)
    (hreg : r.findHandler ⟨method, path⟩ = some h) :
    invokedHandlers (r.ServeHTTP app w ⟨method, path⟩).events = [h] ∧
    (r.ServeHTTP app w ⟨method, path⟩).writer =
      app h { Writer := w, Request := ⟨method, path⟩ } := by
  rw [ServeHTTP_hit r app w ⟨method, path⟩ h hreg]
  simp [invokedHandlers]

/-- C1 witness: the scenario of `TestRouter_ServeHTTP_Found` — handler `0`
registered under GET /test, dispatched with GET /test. -/
theorem C1_witness :
    (((Router.New : Router Nat).GET "/test" 0).findHandler ⟨"GET", "/test"⟩ = some 0) ∧
    invokedHandlers
      ((((Router.New : Router Nat).GET "/test" 0).ServeHTTP demoApp
        ResponseWriter.fresh ⟨"GET", "/test"⟩).events) = [0] ∧
    ((((Router.New : Router Nat).GET "/test" 0).ServeHTTP demoApp
        ResponseWriter.fresh ⟨"GET", "/test"⟩).writer) =
      demoApp 0 { Writer := ResponseWriter.fresh, Request := ⟨"GET", "/test"⟩ } :=
  ⟨rfl, C1_dispatch_invokes_exactly_registered _ demoApp _ "GET" "/test" 0 rfl⟩

/-- C2: whenever the `(method, path)` pair is not in the route table —
method absent entirely, or method present but path absent, which also
covers "path registered only under a different method" — `ServeHTTP`
answers 404 via `http.NotFound`, invokes no handler, and every miss
produces the identical outcome (no 405 distinction); the function is total,
so no panic. -/
theorem C2_unmatched_request_404 {H : Type}
    (r : Router H) (app : H → Context → ResponseWriter) (w : ResponseWriter)
    (req : Request)
    (hmiss : lookupA req.method r.routes = none ∨
      ∃ pm, lookupA req.method r.routes = some pm ∧ lookupA req.path pm = none)
    (hfresh : w.statusCalls = []) :
    (r.ServeHTTP app w req).writer.effStatus = 404 ∧
    invokedHandlers (r.ServeHTTP app w req).events = [] ∧
    (r.ServeHTTP app w req).writer = httpNotFound w := by
  have hnone : r.findHandler req = none := by
    unfold Router.findHandler
    rcases hmiss with hm | ⟨pm, hm, hp⟩
    · simp [hm]
    · simp [hm, hp]
  rw [ServeHTTP_miss r app w req hnone]
  exact ⟨httpNotFound_effStatus w hfresh, by simp [invokedHandlers], rfl⟩

/-- C2 witness: the three miss shapes of the router tests — a method with
no registrations, GET of an unregistered path, and POST of a path known
only under GET — all yield the same 404 no-invocation outcome. -/
theorem C2_witness :
    ((((Router.New : Router Nat).GET "/test" 0).ServeHTTP demoApp
        ResponseWriter.fresh ⟨"PUT", "/test"⟩).writer.effStatus = 404 ∧
      invokedHandlers ((((Router.New : Router Nat).GET "/test" 0).ServeHTTP demoApp
        ResponseWriter.fresh ⟨"PUT", "/test"⟩).events) = [] ∧
      ((((Router.New : Router Nat).GET "/test" 0).ServeHTTP demoApp
        ResponseWriter.fresh ⟨"PUT", "/test"⟩).writer) = httpNotFound ResponseWriter.fresh) ∧
    ((((Router.New : Router Nat).GET "/exists" 0).ServeHTTP demoApp
        ResponseWriter.fresh ⟨"GET", "/does-not-exist"⟩).writer.effStatus = 404 ∧
      invokedHandlers ((((Router.New : Router Nat).GET "/exists" 0).ServeHTTP demoApp
        ResponseWriter.fresh ⟨"GET", "/does-not-exist"⟩).events) = [] ∧
      ((((Router.New : Router Nat).GET "/exists" 0).ServeHTTP demoApp
        ResponseWriter.fresh ⟨"GET", "/does-not-exist"⟩).writer) = httpNotFound ResponseWriter.fresh) ∧
    ((((Router.New : Router Nat).GET "/test" 0).ServeHTTP demoApp
        ResponseWriter.fresh ⟨"POST", "/test"⟩).writer.effStatus = 404 ∧
      invokedHandlers ((((Router.New : Router Nat).GET "/test" 0).ServeHTTP demoApp
        ResponseWriter.fresh ⟨"POST", "/test"⟩).events) = [] ∧
      ((((Router.New : Router Nat).GET "/test" 0).ServeHTTP demoApp
        ResponseWriter.fresh ⟨"POST", "/test"⟩).writer) = httpNotFound ResponseWriter.fresh) :=
  ⟨C2_unmatched_request_404 _ demoApp _ ⟨"PUT", "/test"⟩ (Or.inl rfl) rfl,
   C2_unmatched_request_404 _ demoApp _ ⟨"GET", "/does-not-exist"⟩
     (Or.inr ⟨_, rfl, rfl⟩) rfl,
   C2_unmatched_request_404 _ demoApp _ ⟨"POST", "/test"⟩ (Or.inl rfl) rfl⟩

/-- C3: registering `h1` then `h2` under the same `(method, path)` silently
overwrites (`addRoute` is total, so registration reports no error), and a
matching dispatch invokes only `h2` — in particular, when `h1 ≠ h2`, no
invocation of `h1` appears in the trace. -/
theorem C3_last_write_wins {H : Type}
    (r : Router H) (app : H → Context → ResponseWriter) (w : ResponseWriter)
    (m p : String) (h1 h2 : H) (hne : h1 ≠ h2) :
    invokedHandlers
      ((((r.addRoute m p h1).addRoute m p h2).ServeHTTP app w ⟨m, p⟩).events) = [h2] ∧
    RouterEvent.invoke h1 ∉
      (((r.addRoute m p h1).addRoute m p h2).ServeHTTP app w ⟨m, p⟩).events := by
  rw [ServeHTTP_hit _ app w ⟨m, p⟩ h2 (findHandler_addRoute_self _ m p h2)]
  refine ⟨by simp [invokedHandlers], ?_⟩
  simp [hne]

/-- C3 witness: handlers 1 then 2 registered under GET /dup; only 2 runs. -/
theorem C3_witness :
    invokedHandlers
      (((((Router.New : Router Nat).addRoute "GET" "/dup" 1).addRoute "GET" "/dup" 2).ServeHTTP
        demoApp ResponseWriter.fresh ⟨"GET", "/dup"⟩).events) = [2] ∧
    RouterEvent.invoke 1 ∉
      ((((Router.New : Router Nat).addRoute "GET" "/dup" 1).addRoute "GET" "/dup" 2).ServeHTTP
        demoApp ResponseWriter.fresh ⟨"GET", "/dup"⟩).events :=
  C3_last_write_wins Router.New demoApp ResponseWriter.fresh "GET" "/dup" 1 2
    (by decide)

/-- C7: registration never validates its arguments: for any non-empty
method and path strings (malformed or not) and any prior table,
`addRoute` — the common body of `GET`/`POST`/any registration — simply
inserts or overwrites the binding; it is a total function, so it returns no
error and always succeeds. -/
theorem C7_register_no_validation {H : Type}
    (r : Router H) (m p : String) (h : H) (_hm : m ≠ "") (_hp : p ≠ "") :
    (r.addRoute m p h).findHandler ⟨m, p⟩ = some h :=
  findHandler_addRoute_self r m p h

/-- C7 witness: a syntactically malformed path (no leading slash, embedded
spaces) registers fine. -/
theorem C7_witness :
    ("WEIRD" ≠ "") ∧ ("no slash here" ≠ "") ∧
    (((Router.New : Router Nat).addRoute "WEIRD" "no slash here" 7).findHandler
      ⟨"WEIRD", "no slash here"⟩ = some 7) :=
  ⟨by decide, by decide,
   C7_register_no_validation Router.New "WEIRD" "no slash here" 7
     (by decide) (by decide)⟩

/-- C8 counterexample: the code takes the read lock and releases it with
`defer`, i.e. only when `ServeHTTP` returns — so on a concrete hit the
trace is acquire, invoke, release, and no release precedes the invocation,
contradicting "the lock is released before the handler is invoked". -/
theorem C8_counterexample :
    ((((Router.New : Router Nat).GET "/test" 0).ServeHTTP demoApp
        ResponseWriter.fresh ⟨"GET", "/test"⟩).events) =
      [.rlock, .invoke 0, .runlock] ∧
    unlockBeforeInvoke
      ((((Router.New : Router Nat).GET "/test" 0).ServeHTTP demoApp
        ResponseWriter.fresh ⟨"GET", "/test"⟩).events) = false := by
  constructor <;> rfl

/-- C8 amended: `ServeHTTP` holds the read lock for its whole extent — the
handler is invoked strictly between acquiring and releasing it, and the
deferred release happens only as `ServeHTTP` returns (the handler
reference it invokes is the one read under the lock). -/
theorem C8_lock_held_across_handler {H : Type}
    (r : Router H) (app : H → Context → ResponseWriter) (w : ResponseWriter)
    (req : Request) (h : H) (hreg : r.findHandler req = some h) :
    (r.ServeHTTP app w req).events = [.rlock, .invoke h, .runlock] := by
  rw [ServeHTTP_hit r app w req h hreg]

/-- C8 witness: the amended lock discipline on the concrete hit. -/
theorem C8_witness :
    (((Router.New : Router Nat).GET "/health" 3).findHandler ⟨"GET", "/health"⟩ = some 3) ∧
    ((((Router.New : Router Nat).GET "/health" 3).ServeHTTP demoApp
        ResponseWriter.fresh ⟨"GET", "/health"⟩).events) =
      [.rlock, .invoke 3, .runlock] :=
  ⟨rfl, C8_lock_held_across_handler _ demoApp _ ⟨"GET", "/health"⟩ 3 rfl⟩

/-- C9: dispatch never mutates the route table — for every request, matched
or not, the router `ServeHTTP` leaves behind is the router it started from;
only `addRoute` (hence `GET`/`POST`/registration) produces a different
table. -/
theorem C9_dispatch_preserves_routes {H : Type}
    (r : Router H) (app : H → Context → ResponseWriter) (w : ResponseWriter)
    (req : Request) :
    (r.ServeHTTP app w req).router = r := by
  unfold Router.ServeHTTP
  cases hm : lookupA req.method r.routes with
  | none => rfl
  | some pm => cases hp : lookupA req.path pm <;> simp [hp]

/-- C10: the empty method and the empty path are registered like anything
else — no non-emptiness precondition exists — and a request whose method
and path are both empty dispatches to that handler. -/
theorem C10_empty_strings_register_and_dispatch {H : Type}
    (r : Router H) (app : H → Context → ResponseWriter) (w : ResponseWriter) (h : H) :
    ((r.addRoute "" "" h).findHandler ⟨"", ""⟩ = some h) ∧
    invokedHandlers (((r.addRoute "" "" h).ServeHTTP app w ⟨"", ""⟩).events) = [h] := by
  refine ⟨findHandler_addRoute_self r "" "" h, ?_⟩
  rw [ServeHTTP_hit _ app w ⟨"", ""⟩ h (findHandler_addRoute_self r "" "" h)]
  simp [invokedHandlers]

/-! ## Round-trip of rendered numbers -/

theorem digitCh_isDigit : ∀ d : Nat, d < 10 → (digitCh d).isDigit = true := by decide

theorem digitCh_toNat : ∀ d : Nat, d < 10 → (digitCh d).toNat = 48 + d := by decide

theorem natChars_all_digit (n : Nat) : ∀ c ∈ natChars n, c.isDigit = true := by
  unfold natChars
  by_cases h : n = 0
  · simp [h]
  · rw [if_neg h]
    intro c hc
    rw [List.mem_reverse, List.mem_map] at hc
    obtain ⟨d, hd, rfl⟩ := hc
    exact digitCh_isDigit d (Nat.digits_lt_base (by norm_num) hd)

theorem natChars_ne_nil (n : Nat) : natChars n ≠ [] := by
  unfold natChars
  by_cases h : n = 0
  · simp [h]
  · rw [if_neg h]
    simp [Nat.digits_ne_nil_iff_ne_zero.mpr h]

theorem foldr_digits_eq_ofDigits :
    ∀ l : List Nat, (∀ d ∈ l, d < 10) →
      List.foldr (fun d a => a * 10 + ((digitCh d).toNat - 48)) 0 l = Nat.ofDigits 10 l := by
  intro l
  induction l with
  | nil => simp [Nat.ofDigits]
  | cons d l ih =>
      intro hall
      have hd : d < 10 := hall d (by simp)
      rw [List.foldr_cons, ih (fun x hx => hall x (by simp [hx])), digitCh_toNat d hd,
        Nat.ofDigits_cons]
      omega

theorem natVal_natChars (n : Nat) : natVal (natChars n) = n := by
  unfold natVal natChars
  by_cases h : n = 0
  · simp [h]
  · rw [if_neg h, List.foldl_reverse, List.foldr_map]
    rw [foldr_digits_eq_ofDigits _ (fun d hd => Nat.digits_lt_base (by norm_num) hd),
      Nat.ofDigits_digits]

theorem takeWhile_digits (ds rest : List Char) (hds : ∀ c ∈ ds, c.isDigit = true)
    (hrest : noDigitHead rest = true) :
    List.takeWhile Char.isDigit (ds ++ rest) = ds ∧
    List.dropWhile Char.isDigit (ds ++ rest) = rest := by
  induction ds with
  | nil =>
      cases rest with
      | nil => simp
      | cons c t =>
          have hc : c.isDigit = false := by
            simpa [noDigitHead] using hrest
          simp [List.takeWhile, List.dropWhile, hc]
  | cons d ds ih =>
      have hd : d.isDigit = true := hds d (by simp)
      obtain ⟨iht, ihd⟩ := ih (fun c hc => hds c (by simp [hc]))
      simp [List.takeWhile, List.dropWhile, hd, iht, ihd]

theorem parseDigits_natChars (n : Nat) (rest : List Char) (hrest : noDigitHead rest = true) :
    parseDigits (natChars n ++ rest) = some (n, rest) := by
  obtain ⟨ht, hd⟩ := takeWhile_digits (natChars n) rest (natChars_all_digit n) hrest
  unfold parseDigits
  rw [ht, hd]
  cases hnc : natChars n with
  | nil => exact absurd hnc (natChars_ne_nil n)
  | cons c t =>
      have : natVal (c :: t) = n := by rw [← hnc, natVal_natChars]
      simp [this]

/-! ## Round-trip of rendered strings -/

theorem hexNib_hexDigitCh : ∀ d : Nat, d < 16 → hexNib (hexDigitCh d) = some d := by decide

theorem parseStrBody_escape (c : Char) (cs : List Char) :
    parseStrBody (jEscapeChar c ++ cs) =
      (parseStrBody cs).map (fun p => (c :: p.1, p.2)) := by
  by_cases h1 : c = '"'
  · subst h1
    rw [show jEscapeChar '"' ++ cs = '\\' :: '"' :: cs from rfl, parseStrBody.eq_def]
    simp
  by_cases h2 : c = '\\'
  · subst h2
    rw [show jEscapeChar '\\' ++ cs = '\\' :: '\\' :: cs from rfl, parseStrBody.eq_def]
    simp
  by_cases h3 : c = '\n'
  · subst h3
    rw [show jEscapeChar '\n' ++ cs = '\\' :: 'n' :: cs from rfl, parseStrBody.eq_def]
    simp [escShort]
  by_cases h4 : c = '\r'
  · subst h4
    rw [show jEscapeChar '\r' ++ cs = '\\' :: 'r' :: cs from rfl, parseStrBody.eq_def]
    simp [escShort]
  by_cases h5 : c = '\t'
  · subst h5
    rw [show jEscapeChar '\t' ++ cs = '\\' :: 't' :: cs from rfl, parseStrBody.eq_def]
    simp [escShort]
  by_cases h6 : c = '<'
  · subst h6
    rw [show jEscapeChar '<' ++ cs = '\\' :: 'u' :: '0' :: '0' :: '3' :: 'c' :: cs from rfl,
      parseStrBody.eq_def]
    simp [show hexNib '0' = some 0 from by decide, show hexNib '3' = some 3 from by decide,
      show hexNib 'c' = some 12 from by decide]
  by_cases h7 : c = '>'
  · subst h7
    rw [show jEscapeChar '>' ++ cs = '\\' :: 'u' :: '0' :: '0' :: '3' :: 'e' :: cs from rfl,
      parseStrBody.eq_def]
    simp [show hexNib '0' = some 0 from by decide, show hexNib '3' = some 3 from by decide,
      show hexNib 'e' = some 14 from by decide]
  by_cases h8 : c = '&'
  · subst h8
    rw [show jEscapeChar '&' ++ cs = '\\' :: 'u' :: '0' :: '0' :: '2' :: '6' :: cs from rfl,
      parseStrBody.eq_def]
    simp [show hexNib '0' = some 0 from by decide, show hexNib '2' = some 2 from by decide,
      show hexNib '6' = some 6 from by decide]
  by_cases h9 : c.toNat < 32
  · have hesc : jEscapeChar c =
        ['\\', 'u', '0', '0', hexDigitCh (c.toNat / 16), hexDigitCh (c.toNat % 16)] := by
      simp [jEscapeChar, h1, h2, h3, h4, h5, h6, h7, h8, h9]
    have hhi := hexNib_hexDigitCh (c.toNat / 16) (by omega)
    have hlo := hexNib_hexDigitCh (c.toNat % 16) (by omega)
    rw [hesc, show ['\\', 'u', '0', '0', hexDigitCh (c.toNat / 16),
        hexDigitCh (c.toNat % 16)] ++ cs =
      '\\' :: 'u' :: '0' :: '0' :: hexDigitCh (c.toNat / 16) ::
        hexDigitCh (c.toNat % 16) :: cs from rfl, parseStrBody.eq_def]
    simp only [show hexNib '0' = some 0 from by decide, hhi, hlo]
    simp
    rw [show c.toNat / 16 * 16 + c.toNat % 16 = c.toNat from by omega, Char.ofNat_toNat]
  by_cases h10 : c.toNat = 8232
  · have hc : Char.ofNat 8232 = c := by rw [← h10, Char.ofNat_toNat]
    subst hc
    rw [show jEscapeChar (Char.ofNat 8232) ++ cs =
      '\\' :: 'u' :: '2' :: '0' :: '2' :: '8' :: cs from rfl, parseStrBody.eq_def]
    simp [show hexNib '2' = some 2 from by decide, show hexNib '0' = some 0 from by decide,
      show hexNib '8' = some 8 from by decide]
  by_cases h11 : c.toNat = 8233
  · have hc : Char.ofNat 8233 = c := by rw [← h11, Char.ofNat_toNat]
    subst hc
    rw [show jEscapeChar (Char.ofNat 8233) ++ cs =
      '\\' :: 'u' :: '2' :: '0' :: '2' :: '9' :: cs from rfl, parseStrBody.eq_def]
    simp [show hexNib '2' = some 2 from by decide, show hexNib '0' = some 0 from by decide,
      show hexNib '9' = some 9 from by decide]
  · have hesc : jEscapeChar c = [c] := by
      simp [jEscapeChar, h1, h2, h3, h4, h5, h6, h7, h8, h9, h10, h11]
    rw [hesc, show [c] ++ cs = c :: cs from rfl, parseStrBody.eq_def]
    simp [h1, h2]

theorem parseStrBody_jString (l : List Char) :
    ∀ cs : List Char, parseStrBody (l.flatMap jEscapeChar ++ ('"' :: cs)) = some (l, cs) := by
  induction l with
  | nil =>
      intro cs
      rw [show ([] : List Char).flatMap jEscapeChar ++ ('"' :: cs) = '"' :: cs from rfl,
        parseStrBody.eq_def]
      simp
  | cons c l ih =>
      intro cs
      rw [List.flatMap_cons, List.append_assoc, parseStrBody_escape, ih]
      rfl

theorem parseVal_jString (fuel : Nat) (s : String) (rest : List Char) :
    parseVal (fuel + 1) (jString s ++ rest) = some (.str s, rest) := by
  rw [show jString s ++ rest = '"' :: (s.data.flatMap jEscapeChar ++ ('"' :: rest)) from by
    simp [jString], parseVal.eq_def]
  simp [parseStrBody_jString]

theorem parseVal_digit (fuel : Nat) (c : Char) (r : List Char) (hc : c.isDigit = true) :
    parseVal (fuel + 1) (c :: r) =
      (parseDigits (c :: r)).map (fun p => (Json.num (p.1 : Int), p.2)) := by
  have h1 : ¬ c = 'n' := fun e => absurd (e ▸ hc) (by decide)
  have h2 : ¬ c = 't' := fun e => absurd (e ▸ hc) (by decide)
  have h3 : ¬ c = 'f' := fun e => absurd (e ▸ hc) (by decide)
  have h4 : ¬ c = '"' := fun e => absurd (e ▸ hc) (by decide)
  have h5 : ¬ c = '[' := fun e => absurd (e ▸ hc) (by decide)
  have h6 : ¬ c = '{' := fun e => absurd (e ▸ hc) (by decide)
  have h7 : ¬ c = '-' := fun e => absurd (e ▸ hc) (by decide)
  rw [parseVal.eq_def]
  simp [h1, h2, h3, h4, h5, h6, h7, hc]

theorem parseVal_intChars (fuel : Nat) (i : Int) (rest : List Char)
    (hrest : noDigitHead rest = true) :
    parseVal (fuel + 1) (intChars i ++ rest) = some (.num i, rest) := by
  unfold intChars
  by_cases hneg : i < 0
  · rw [if_pos hneg,
      show ('-' :: natChars i.natAbs) ++ rest = '-' :: (natChars i.natAbs ++ rest) from rfl,
      parseVal.eq_def]
    have habs : ((i.natAbs : Int)) = -i := Int.ofNat_natAbs_of_nonpos (by omega)
    simp [parseDigits_natChars i.natAbs rest hrest, habs]
  · rw [if_neg hneg]
    obtain ⟨c, t, hct⟩ := List.exists_cons_of_ne_nil (natChars_ne_nil i.natAbs)
    have hc : c.isDigit = true := by
      apply natChars_all_digit i.natAbs
      rw [hct]; simp
    rw [hct, List.cons_append, parseVal_digit fuel c (t ++ rest) hc, ← List.cons_append,
      ← hct, parseDigits_natChars i.natAbs rest hrest]
    simp [Int.natAbs_of_nonneg (by omega : (0 : Int) ≤ i)]

/-! ## Shape facts about rendered documents -/

theorem jRender_null : jRender .null = ['n', 'u', 'l', 'l'] := by
  rw [show (['n', 'u', 'l', 'l'] : List Char) = "null".data from rfl]
  simp [jRender]

theorem jRender_boolT : jRender (.bool true) = ['t', 'r', 'u', 'e'] := by
  rw [show (['t', 'r', 'u', 'e'] : List Char) = "true".data from rfl]
  simp [jRender]

theorem jRender_boolF : jRender (.bool false) = ['f', 'a', 'l', 's', 'e'] := by
  rw [show (['f', 'a', 'l', 's', 'e'] : List Char) = "false".data from rfl]
  simp [jRender]

theorem jRender_num (i : Int) : jRender (.num i) = intChars i := by simp [jRender]

theorem jRender_str (s : String) : jRender (.str s) = jString s := by simp [jRender]

theorem jRender_arr (xs : List Json) : jRender (.arr xs) = '[' :: jElems xs := by
  simp [jRender]

theorem jRender_obj (fs : List (String × Json)) : jRender (.obj fs) = '{' :: jFields fs := by
  simp [jRender]

theorem jElems_nil : jElems [] = [']'] := by simp [jElems]

theorem jElems_cons (x : Json) (xs : List Json) :
    jElems (x :: xs) = jRender x ++ jElemsMore xs := by simp [jElems]

theorem jElemsMore_nil : jElemsMore [] = [']'] := by simp [jElemsMore]

theorem jElemsMore_cons (y : Json) (ys : List Json) :
    jElemsMore (y :: ys) = ',' :: jElems (y :: ys) := by
  simp [jElemsMore, jElems]

theorem jFields_nil : jFields [] = ['}'] := by simp [jFields]

theorem jFields_cons (k : String) (v : Json) (fs : List (String × Json)) :
    jFields ((k, v) :: fs) = jString k ++ ':' :: (jRender v ++ jFieldsMore fs) := by
  simp [jFields]

theorem jFieldsMore_nil : jFieldsMore [] = ['}'] := by simp [jFieldsMore]

theorem jFieldsMore_cons (k : String) (v : Json) (fs : List (String × Json)) :
    jFieldsMore ((k, v) :: fs) = ',' :: jFields ((k, v) :: fs) := by
  simp [jFieldsMore, jFields]

theorem jRender_head (j : Json) :
    ∃ c t, jRender j = c :: t ∧
      (c = 'n' ∨ c = 't' ∨ c = 'f' ∨ c = '"' ∨ c = '[' ∨ c = '{' ∨ c = '-' ∨
        c.isDigit = true) := by
  cases j with
  | null => exact ⟨'n', _, jRender_null, by simp⟩
  | bool b =>
      cases b with
      | true => exact ⟨'t', _, jRender_boolT, by simp⟩
      | false => exact ⟨'f', _, jRender_boolF, by simp⟩
  | str s => exact ⟨'"', _, by rw [jRender_str]; rfl, by simp⟩
  | arr xs => exact ⟨'[', _, jRender_arr xs, by simp⟩
  | obj fs => exact ⟨'{', _, jRender_obj fs, by simp⟩
  | num i =>
      rw [jRender_num]
      unfold intChars
      by_cases hneg : i < 0
      · exact ⟨'-', _, by rw [if_pos hneg], by simp⟩
      · obtain ⟨c, t, hct⟩ := List.exists_cons_of_ne_nil (natChars_ne_nil i.natAbs)
        refine ⟨c, t, by rw [if_neg hneg, hct], Or.inr (Or.inr ?_)⟩
        have : c.isDigit = true := by
          apply natChars_all_digit i.natAbs
          rw [hct]; simp
        simp [this]

theorem noDigitHead_jElemsMore (xs : List Json) (rest : List Char) :
    noDigitHead (jElemsMore xs ++ rest) = true := by
  cases xs with
  | nil => simp [jElemsMore_nil, noDigitHead]
  | cons y ys => simp [jElemsMore_cons, noDigitHead]

theorem noDigitHead_jFieldsMore (fs : List (String × Json)) (rest : List Char) :
    noDigitHead (jFieldsMore fs ++ rest) = true := by
  cases fs with
  | nil => simp [jFieldsMore_nil, noDigitHead]
  | cons p gs =>
      obtain ⟨k, v⟩ := p
      simp [jFieldsMore_cons, noDigitHead]

theorem jElemsMore_length_pos (xs : List Json) : 1 ≤ (jElemsMore xs).length := by
  cases xs with
  | nil => simp [jElemsMore_nil]
  | cons y ys => simp [jElemsMore_cons]

theorem jFieldsMore_length_pos (fs : List (String × Json)) :
    1 ≤ (jFieldsMore fs).length := by
  cases fs with
  | nil => simp [jFieldsMore_nil]
  | cons p gs =>
      obtain ⟨k, v⟩ := p
      simp [jFieldsMore_cons]

/-! ## The parser inverts the renderer -/

mutual
theorem rt_parseVal : ∀ (j : Json) (fuel : Nat) (rest : List Char),
    (jRender j).length < fuel → noDigitHead rest = true →
    parseVal fuel (jRender j ++ rest) = some (j, rest)
  | _, 0, _, hf, _ => absurd hf (Nat.not_lt_zero _)
  | .null, fuel + 1, rest, _, _ => by
      rw [jRender_null,
        show (['n', 'u', 'l', 'l'] : List Char) ++ rest = 'n' :: 'u' :: 'l' :: 'l' :: rest
          from rfl, parseVal.eq_def]
      simp [expectChars]
  | .bool true, fuel + 1, rest, _, _ => by
      rw [jRender_boolT,
        show (['t', 'r', 'u', 'e'] : List Char) ++ rest = 't' :: 'r' :: 'u' :: 'e' :: rest
          from rfl, parseVal.eq_def]
      simp [expectChars]
  | .bool false, fuel + 1, rest, _, _ => by
      rw [jRender_boolF,
        show (['f', 'a', 'l', 's', 'e'] : List Char) ++ rest
          = 'f' :: 'a' :: 'l' :: 's' :: 'e' :: rest from rfl, parseVal.eq_def]
      simp [expectChars]
  | .num i, fuel + 1, rest, _, hr => by
      rw [jRender_num]
      exact parseVal_intChars fuel i rest hr
  | .str s, fuel + 1, rest, _, _ => by
      rw [jRender_str]
      exact parseVal_jString fuel s rest
  | .arr [], fuel + 1, rest, _, _ => by
      rw [jRender_arr, jElems_nil,
        show ('[' :: [']'] : List Char) ++ rest = '[' :: ']' :: rest from rfl, parseVal.eq_def]
      simp
  | .arr (x :: xs), fuel + 1, rest, hf, hr => by
      obtain ⟨c, t, hct, hcprop⟩ := jRender_head x
      have hcne : ¬ (c = ']') := by
        rcases hcprop with h | h | h | h | h | h | h | h
        all_goals first
          | (subst h; decide)
          | (intro he; rw [he] at h; exact absurd h (by decide))
      have hlen : (jElems (x :: xs)).length < fuel := by
        rw [jRender_arr] at hf
        simpa using hf
      have hcons : jElems (x :: xs) ++ rest = c :: (t ++ (jElemsMore xs ++ rest)) := by
        rw [jElems_cons, hct]
        simp
      have hpi := rt_parseItems x xs fuel rest hlen hr
      rw [hcons] at hpi
      rw [show jRender (.arr (x :: xs)) ++ rest = '[' :: (jElems (x :: xs) ++ rest) from by
        rw [jRender_arr]; rfl, parseVal.eq_def]
      simp [hcons, hcne, hpi]
  | .obj [], fuel + 1, rest, _, _ => by
      rw [jRender_obj, jFields_nil,
        show ('{' :: ['}'] : List Char) ++ rest = '{' :: '}' :: rest from rfl, parseVal.eq_def]
      simp
  | .obj ((k, v) :: fs), fuel + 1, rest, hf, hr => by
      have hlen : (jFields ((k, v) :: fs)).length < fuel := by
        rw [jRender_obj] at hf
        simpa using hf
      have hcons : jFields ((k, v) :: fs) ++ rest
          = '"' :: (k.data.flatMap jEscapeChar
              ++ ('"' :: (':' :: (jRender v ++ (jFieldsMore fs ++ rest))))) := by
        rw [jFields_cons]
        simp [jString]
      have hpm := rt_parseMems k v fs fuel rest hlen hr
      rw [hcons] at hpm
      rw [show jRender (.obj ((k, v) :: fs)) ++ rest = '{' :: (jFields ((k, v) :: fs) ++ rest)
        from by rw [jRender_obj]; rfl, parseVal.eq_def]
      simp [hcons, hpm]
termination_by j _ _ _ _ => sizeOf j

theorem rt_parseItems : ∀ (x : Json) (xs : List Json) (fuel : Nat) (rest : List Char),
    (jElems (x :: xs)).length < fuel → noDigitHead rest = true →
    parseItems fuel (jElems (x :: xs) ++ rest) = some (x :: xs, rest)
  | _, _, 0, _, hf, _ => absurd hf (Nat.not_lt_zero _)
  | x, [], fuel + 1, rest, hf, hr => by
      have hlenx : (jRender x).length < fuel := by
        rw [jElems_cons, jElemsMore_nil] at hf
        simp at hf
        omega
      have hx := rt_parseVal x fuel (jElemsMore [] ++ rest) hlenx
        (noDigitHead_jElemsMore [] rest)
      rw [show jElems (x :: []) ++ rest = jRender x ++ (jElemsMore [] ++ rest) from by
        rw [jElems_cons]; simp, parseItems.eq_def]
      simp only [hx]
      simp [jElemsMore_nil]
  | x, y :: ys, fuel + 1, rest, hf, hr => by
      have hlens : (jRender x).length + ((jElems (y :: ys)).length + 1) < fuel + 1 := by
        rw [jElems_cons, jElemsMore_cons] at hf
        simpa using hf
      have hlenx : (jRender x).length < fuel := by omega
      have hlent : (jElems (y :: ys)).length < fuel := by omega
      have hx := rt_parseVal x fuel (jElemsMore (y :: ys) ++ rest) hlenx
        (noDigitHead_jElemsMore (y :: ys) rest)
      have hrec := rt_parseItems y ys fuel rest hlent hr
      rw [show jElems (x :: y :: ys) ++ rest = jRender x ++ (jElemsMore (y :: ys) ++ rest)
        from by rw [jElems_cons]; simp, parseItems.eq_def]
      simp only [hx]
      simp [jElemsMore_cons, hrec]
termination_by x xs _ _ _ _ => 1 + sizeOf x + sizeOf xs

theorem rt_parseMems : ∀ (k : String) (v : Json) (fs : List (String × Json)) (fuel : Nat)
    (rest : List Char),
    (jFields ((k, v) :: fs)).length < fuel → noDigitHead rest = true →
    parseMems fuel (jFields ((k, v) :: fs) ++ rest) = some ((k, v) :: fs, rest)
  | _, _, _, 0, _, hf, _ => absurd hf (Nat.not_lt_zero _)
  | k, v, [], fuel + 1, rest, hf, hr => by
      have hlenv : (jRender v).length < fuel := by
        rw [jFields_cons, jFieldsMore_nil] at hf
        simp [jString] at hf
        omega
      have hv := rt_parseVal v fuel (jFieldsMore [] ++ rest) hlenv
        (noDigitHead_jFieldsMore [] rest)
      rw [show jFields ((k, v) :: []) ++ rest
          = '"' :: (k.data.flatMap jEscapeChar
              ++ ('"' :: (':' :: (jRender v ++ (jFieldsMore [] ++ rest))))) from by
        rw [jFields_cons]; simp [jString], parseMems.eq_def]
      simp only [parseStrBody_jString, hv]
      simp [jFieldsMore_nil]
  | k, v, (k2, v2) :: gs, fuel + 1, rest, hf, hr => by
      have hlens : (jString k).length
          + ((jRender v).length + ((jFields ((k2, v2) :: gs)).length + 1) + 1) < fuel + 1 := by
        rw [jFields_cons, jFieldsMore_cons] at hf
        simpa using hf
      have hlenv : (jRender v).length < fuel := by omega
      have hlen2 : (jFields ((k2, v2) :: gs)).length < fuel := by omega
      have hv := rt_parseVal v fuel (jFieldsMore ((k2, v2) :: gs) ++ rest) hlenv
        (noDigitHead_jFieldsMore ((k2, v2) :: gs) rest)
      have hrec := rt_parseMems k2 v2 gs fuel rest hlen2 hr
      rw [show jFields ((k, v) :: (k2, v2) :: gs) ++ rest
          = '"' :: (k.data.flatMap jEscapeChar
              ++ ('"' :: (':' :: (jRender v ++ (jFieldsMore ((k2, v2) :: gs) ++ rest)))))
        from by rw [jFields_cons]; simp [jString], parseMems.eq_def]
      simp only [parseStrBody_jString, hv]
      simp [jFieldsMore_cons, hrec]
termination_by k v fs _ _ _ _ => 1 + sizeOf k + sizeOf v + sizeOf fs
end

/-- Deserializing exactly what `json.Encoder.Encode` wrote (document plus
newline) recovers the document. -/
theorem decodeJson_render (j : Json) :
    decodeJson (String.mk (jRender j ++ ['\n'])) = some j := by
  unfold decodeJson
  rw [show (String.mk (jRender j ++ ['\n'])).data = jRender j ++ ['\n'] from rfl]
  rw [rt_parseVal j ((jRender j ++ ['\n']).length + 1) ['\n']
    (by simp only [List.length_append, List.length_cons, List.length_nil]; omega) (by decide)]
  simp [isWsCh]

/-! ## Sorted-key encoding is invisible to `reflect.DeepEqual` -/

theorem insertByKey_perm {β : Type} (p : String × β) (l : List (String × β)) :
    List.Perm (insertByKey p l) (p :: l) := by
  induction l with
  | nil => exact List.Perm.refl _
  | cons q rest ih =>
      by_cases h : strLeCh p.1.data q.1.data
      · simp [insertByKey, h]
      · simp only [insertByKey, h, Bool.false_eq_true, if_false]
        exact (ih.cons q).trans (List.Perm.swap p q rest)

theorem sortByKey_perm {β : Type} (l : List (String × β)) : List.Perm (sortByKey l) l := by
  induction l with
  | nil => exact List.Perm.refl _
  | cons p rest ih => exact (insertByKey_perm p (sortByKey rest)).trans (ih.cons p)

theorem encodeGoFields_length : ∀ (fs : List (String × GoValue)) (l : List (String × Json)),
    encodeGoFields fs = some l → l.length = fs.length := by
  intro fs
  induction fs with
  | nil =>
      intro l he
      simp [encodeGoFields] at he
      subst he
      rfl
  | cons p rest ih =>
      obtain ⟨k, v⟩ := p
      intro l he
      cases hev : encodeGo v with
      | none => simp [encodeGoFields, hev] at he
      | some j =>
          cases hefs : encodeGoFields rest with
          | none => simp [encodeGoFields, hev, hefs] at he
          | some l0 =>
              simp [encodeGoFields, hev, hefs] at he
              subst he
              simp [ih l0 hefs]

theorem decodeGoList_eq_map : ∀ js : List Json, decodeGoList js = js.map decodeGo := by
  intro js
  induction js with
  | nil => simp [decodeGoList]
  | cons j rest ih => simp [decodeGoList, ih]

theorem decodeGoFields_eq_map : ∀ l : List (String × Json),
    decodeGoFields l = l.map (fun p => (p.1, decodeGo p.2)) := by
  intro l
  induction l with
  | nil => simp [decodeGoFields]
  | cons p rest ih =>
      obtain ⟨k, j⟩ := p
      simp [decodeGoFields, ih]

theorem lookupA_of_mem_nodup {β : Type} :
    ∀ (fs : List (String × β)) (k : String) (v : β),
      nodupKeys fs = true → (k, v) ∈ fs → lookupA k fs = some v := by
  intro fs
  induction fs with
  | nil => intro k v _ h; exact absurd h (List.not_mem_nil _)
  | cons p rest ih =>
      obtain ⟨k', v'⟩ := p
      intro k v hnd hmem
      rw [show nodupKeys ((k', v') :: rest)
          = (!(rest.any (fun q => q.1 = k')) && nodupKeys rest) from by simp [nodupKeys],
        Bool.and_eq_true, Bool.not_eq_true'] at hnd
      obtain ⟨hnone, hnd2⟩ := hnd
      rcases List.mem_cons.mp hmem with heq | htail
      · rw [Prod.mk.injEq] at heq
        obtain ⟨rfl, rfl⟩ := heq
        simp [lookupA]
      · by_cases hke : k' = k
        · exfalso
          subst hke
          have hany : rest.any (fun q => q.1 = k') = true :=
            List.any_eq_true.mpr ⟨(k', v), htail, by simp⟩
          rw [hany] at hnone
          exact absurd hnone (by simp)
        · simp [lookupA, hke, ih k v hnd2 htail]

theorem deepEqualFields_iff : ∀ (fs gs : List (String × GoValue)),
    deepEqualFields fs gs = true ↔
      ∀ p ∈ fs, ∃ w, lookupA p.1 gs = some w ∧ deepEqual p.2 w = true := by
  intro fs gs
  induction fs with
  | nil => simp [deepEqualFields]
  | cons p rest ih =>
      obtain ⟨k, v⟩ := p
      rw [show deepEqualFields ((k, v) :: rest) gs
          = ((match lookupA k gs with
              | some w => deepEqual v w
              | none => false) && deepEqualFields rest gs) from by simp [deepEqualFields]]
      cases hl : lookupA k gs with
      | none => simp [hl, ih]
      | some w => simp [hl, ih]

mutual
theorem rt_deep_val : ∀ (v : GoValue) (j : Json), wfGo v = true → encodeGo v = some j →
    deepEqual (decodeGo j) v = true
  | .null, j, _, he => by
      simp [encodeGo] at he
      subst he
      simp [decodeGo, deepEqual]
  | .bool b, j, _, he => by
      simp [encodeGo] at he
      subst he
      simp [decodeGo, deepEqual]
  | .int n, j, _, he => by
      simp [encodeGo] at he
      subst he
      simp [decodeGo, deepEqual]
  | .str s, j, _, he => by
      simp [encodeGo] at he
      subst he
      simp [decodeGo, deepEqual]
  | .unsupported, j, _, he => by
      simp [encodeGo] at he
  | .arr xs, j, hw, he => by
      rw [show encodeGo (.arr xs) = (encodeGoList xs).map Json.arr from by simp [encodeGo]] at he
      cases hexs : encodeGoList xs with
      | none => rw [hexs] at he; exact absurd he (by simp)
      | some js =>
          rw [hexs] at he
          simp only [Option.map_some', Option.some.injEq] at he
          subst he
          have hwl : wfGoList xs = true := by simpa [wfGo] using hw
          rw [show decodeGo (.arr js) = .arr (decodeGoList js) from by simp [decodeGo],
            show deepEqual (.arr (decodeGoList js)) (.arr xs)
              = deepEqualList (decodeGoList js) xs from by simp [deepEqual]]
          exact rt_deep_list xs js hwl hexs
  | .obj fs, j, hw, he => by
      rw [show encodeGo (.obj fs)
          = (encodeGoFields fs).map (fun l => Json.obj (sortByKey l)) from by
        simp [encodeGo]] at he
      cases hefs : encodeGoFields fs with
      | none => rw [hefs] at he; exact absurd he (by simp)
      | some l =>
          rw [hefs] at he
          simp only [Option.map_some', Option.some.injEq] at he
          subst he
          have hwn : nodupKeys fs = true := by
            have := hw
            simp [wfGo] at this
            exact this.1
          have hwf : wfGoFields fs = true := by
            have := hw
            simp [wfGo] at this
            exact this.2
          have hperm := sortByKey_perm l
          have hlen : (decodeGoFields (sortByKey l)).length = fs.length := by
            rw [decodeGoFields_eq_map, List.length_map, hperm.length_eq,
              encodeGoFields_length fs l hefs]
          rw [show decodeGo (.obj (sortByKey l)) = .obj (decodeGoFields (sortByKey l)) from by
            simp [decodeGo],
            show deepEqual (.obj (decodeGoFields (sortByKey l))) (.obj fs)
              = ((decodeGoFields (sortByKey l)).length == fs.length &&
                 deepEqualFields (decodeGoFields (sortByKey l)) fs) from by simp [deepEqual],
            hlen]
          simp only [beq_self_eq_true, Bool.true_and]
          rw [deepEqualFields_iff]
          intro p hp
          rw [decodeGoFields_eq_map, List.mem_map] at hp
          obtain ⟨⟨k, jv⟩, hmem, rfl⟩ := hp
          have hmem' : (k, jv) ∈ l := hperm.subset hmem
          obtain ⟨v, hvmem, hdeep⟩ := rt_deep_fields fs l hwf hefs k jv hmem'
          exact ⟨v, lookupA_of_mem_nodup fs k v hwn hvmem, hdeep⟩
termination_by v _ _ _ => sizeOf v

theorem rt_deep_list : ∀ (xs : List GoValue) (js : List Json), wfGoList xs = true →
    encodeGoList xs = some js → deepEqualList (decodeGoList js) xs = true
  | [], js, _, he => by
      simp [encodeGoList] at he
      subst he
      simp [decodeGoList, deepEqualList]
  | x :: xs, js, hw, he => by
      cases hex : encodeGo x with
      | none => simp [encodeGoList, hex] at he
      | some j1 =>
          cases hexs : encodeGoList xs with
          | none => simp [encodeGoList, hex, hexs] at he
          | some js1 =>
              simp only [encodeGoList, hex, hexs, Option.some.injEq] at he
              subst he
              have hw1 : wfGo x = true := by
                have := hw
                simp [wfGoList] at this
                exact this.1
              have hw2 : wfGoList xs = true := by
                have := hw
                simp [wfGoList] at this
                exact this.2
              simp [decodeGoList, deepEqualList, rt_deep_val x j1 hw1 hex,
                rt_deep_list xs js1 hw2 hexs]
termination_by xs _ _ _ => sizeOf xs

theorem rt_deep_fields : ∀ (fs : List (String × GoValue)) (l : List (String × Json)),
    wfGoFields fs = true → encodeGoFields fs = some l →
    ∀ (k : String) (jv : Json), (k, jv) ∈ l →
      ∃ v, (k, v) ∈ fs ∧ deepEqual (decodeGo jv) v = true
  | [], l, _, he => by
      simp [encodeGoFields] at he
      subst he
      intro k jv h
      exact absurd h (List.not_mem_nil _)
  | (k0, v0) :: fs, l, hw, he => by
      cases hev : encodeGo v0 with
      | none => simp [encodeGoFields, hev] at he
      | some j0 =>
          cases hefs : encodeGoFields fs with
          | none => simp [encodeGoFields, hev, hefs] at he
          | some l0 =>
              simp only [encodeGoFields, hev, hefs, Option.some.injEq] at he
              subst he
              have hw1 : wfGo v0 = true := by
                have := hw
                simp [wfGoFields] at this
                exact this.1
              have hw2 : wfGoFields fs = true := by
                have := hw
                simp [wfGoFields] at this
                exact this.2
              intro k jv hmem
              rcases List.mem_cons.mp hmem with heq | htail
              · rw [Prod.mk.injEq] at heq
                obtain ⟨rfl, rfl⟩ := heq
                exact ⟨v0, by simp, rt_deep_val v0 _ hw1 hev⟩
              · obtain ⟨v, hv, hd⟩ := rt_deep_fields fs l0 hw2 hefs k jv htail
                exact ⟨v, by simp [hv], hd⟩
termination_by fs _ _ _ => sizeOf fs
end

/-! ## What `Context.JSON` writes -/

theorem ContextJSON_success (w0 : ResponseWriter) (req : Request) (sc : Int) (v : GoValue)
    (j : Json) (hfresh : w0.statusCalls = []) (henc : encodeGo v = some j) :
    Context.JSON { Writer := w0, Request := req } sc v =
      { headers := updateA "Content-Type" "application/json" w0.headers
        statusCalls := [sc]
        sentHeaders := updateA "Content-Type" "application/json" w0.headers
        body := w0.body ++ String.mk (jRender j ++ ['\n']) } := by
  unfold Context.JSON encodeBody
  rw [henc]
  simp [ResponseWriter.setHeader, ResponseWriter.writeHeader, ResponseWriter.write, hfresh]

theorem ContextJSON_failure (w0 : ResponseWriter) (req : Request) (sc : Int) (v : GoValue)
    (hfresh : w0.statusCalls = []) (henc : encodeGo v = none) :
    (Context.JSON { Writer := w0, Request := req } sc v).statusCalls = [sc, 500] ∧
    (Context.JSON { Writer := w0, Request := req } sc v).effStatus = sc ∧
    (Context.JSON { Writer := w0, Request := req } sc v).body =
      w0.body ++ "Error encoding JSON response\n" := by
  unfold Context.JSON encodeBody
  rw [henc]
  simp [httpError, ResponseWriter.setHeader, ResponseWriter.delHeader,
    ResponseWriter.writeHeader, ResponseWriter.write, ResponseWriter.effStatus, hfresh]

/-- The error message body does not parse as JSON. -/
theorem decode_error_msg : decodeJson "Error encoding JSON response\n" = none := by
  unfold decodeJson
  rw [show "Error encoding JSON response\n".data
    = 'E' :: "rror encoding JSON response\n".data from rfl]
  rw [parseVal.eq_def]
  simp [show ('E').isDigit = false from by decide]

/-- The health payload is a well-formed Go map snapshot. -/
theorem wf_healthPayload : wfGo healthPayload = true := by
  simp [healthPayload, wfGo, wfGoFields, nodupKeys]

/-- Marshalling the health map yields `healthJson` (keys sorted). -/
theorem encode_healthPayload : encodeGo healthPayload = some healthJson := by
  have hcmp : strLeCh "status".data "service".data = false := by decide
  simp [healthPayload, healthJson, encodeGo, encodeGoFields, sortByKey, insertByKey, hcmp]

/-- C4 counterexample: at the explicit payload `unsupported` (a value
`json.Marshal` rejects, e.g. a channel) and status 200 on a fresh sink, the
response body is the plain error text, which deserializes to no JSON value
at all — so no deserialized value can equal the payload, refuting "for
every payload ... the body deserializes back to a value equal to the
payload". -/
theorem C4_counterexample :
    ¬ ∃ j : Json,
      decodeJson ((Context.JSON { Writer := ResponseWriter.fresh, Request := ⟨"GET", "/health"⟩ }
        200 .unsupported).body) = some j ∧
      deepEqual (decodeGo j) .unsupported = true := by
  rintro ⟨j, hdec, -⟩
  rw [show (Context.JSON { Writer := ResponseWriter.fresh, Request := ⟨"GET", "/health"⟩ }
        200 GoValue.unsupported).body = "Error encoding JSON response\n" from by
    unfold Context.JSON encodeBody
    rw [show encodeGo .unsupported = none from by simp [encodeGo]]
    simp [httpError, ResponseWriter.setHeader, ResponseWriter.delHeader,
      ResponseWriter.writeHeader, ResponseWriter.write, ResponseWriter.fresh]] at hdec
  rw [decode_error_msg] at hdec
  exact absurd hdec (by simp)

/-- C4 (amended): for every status code and every payload whose JSON
serialization succeeds (well-formed Go data, no unmarshalable component),
`Context.JSON(statusCode, payload)` on a fresh sink produces status
`statusCode`, wire Content-Type `application/json`, and a body that
deserializes back to the serialized document, whose reading is
`reflect.DeepEqual` to the payload (round-trip law). -/
theorem C4_json_roundtrip (w0 : ResponseWriter) (req : Request) (sc : Int) (v : GoValue)
    (j : Json) (hfresh : w0.statusCalls = []) (hbody : w0.body = "")
    (hwf : wfGo v = true) (henc : encodeGo v = some j) :
    (Context.JSON { Writer := w0, Request := req } sc v).effStatus = sc ∧
    (Context.JSON { Writer := w0, Request := req } sc v).wireHeader "Content-Type" =
      some "application/json" ∧
    decodeJson (Context.JSON { Writer := w0, Request := req } sc v).body = some j ∧
    deepEqual (decodeGo j) v = true := by
  rw [ContextJSON_success w0 req sc v j hfresh henc]
  refine ⟨rfl, ?_, ?_, rt_deep_val v j hwf henc⟩
  · show ResponseWriter.wireHeader _ "Content-Type" = some "application/json"
    simp [ResponseWriter.wireHeader, lookupA_updateA_self]
  · show decodeJson (w0.body ++ String.mk (jRender j ++ ['\n'])) = some j
    rw [hbody, show ("" : String) ++ String.mk (jRender j ++ ['\n'])
      = String.mk (jRender j ++ ['\n']) from rfl]
    exact decodeJson_render j

/-- C4 witness: the amended round trip at the concrete health payload. -/
theorem C4_witness :
    (Context.JSON { Writer := ResponseWriter.fresh, Request := ⟨"GET", "/health"⟩ }
      200 healthPayload).effStatus = 200 ∧
    (Context.JSON { Writer := ResponseWriter.fresh, Request := ⟨"GET", "/health"⟩ }
      200 healthPayload).wireHeader "Content-Type" = some "application/json" ∧
    decodeJson (Context.JSON { Writer := ResponseWriter.fresh, Request := ⟨"GET", "/health"⟩ }
      200 healthPayload).body = some healthJson ∧
    deepEqual (decodeGo healthJson) healthPayload = true :=
  C4_json_roundtrip ResponseWriter.fresh ⟨"GET", "/health"⟩ 200 healthPayload healthJson
    rfl rfl wf_healthPayload encode_healthPayload

/-- C5 counterexample: at the explicit unserializable payload and status
200 on a fresh sink, the response status is 200, not 500 — the status line
was finalized before serialization, so the post-failure 500 cannot be
applied, refuting "reports an internal-server-error (500) status ... the
status line being finalized only after serialization". -/
theorem C5_counterexample :
    (Context.JSON { Writer := ResponseWriter.fresh, Request := ⟨"POST", "/users"⟩ } 200
      .unsupported).effStatus = 200 ∧
    ¬ ((Context.JSON { Writer := ResponseWriter.fresh, Request := ⟨"POST", "/users"⟩ } 200
      .unsupported).effStatus = 500) := by
  constructor <;>
    · unfold Context.JSON encodeBody
      rw [show encodeGo .unsupported = none from by simp [encodeGo]]
      simp [httpError, ResponseWriter.setHeader, ResponseWriter.delHeader,
        ResponseWriter.writeHeader, ResponseWriter.write, ResponseWriter.effStatus,
        ResponseWriter.fresh]

/-- C5 (amended): on serialization failure `Context.JSON` does attempt to
report 500 through the same sink (`http.Error` issues the second
`WriteHeader` call and writes the error text), but the status line was
finalized before serialization, so the 500 is superfluous and the response
status remains the original `statusCode`. -/
theorem C5_serialization_failure (w0 : ResponseWriter) (req : Request) (sc : Int)
    (v : GoValue) (hfresh : w0.statusCalls = []) (hbody : w0.body = "")
    (henc : encodeGo v = none) :
    (Context.JSON { Writer := w0, Request := req } sc v).statusCalls = [sc, 500] ∧
    (Context.JSON { Writer := w0, Request := req } sc v).effStatus = sc ∧
    (Context.JSON { Writer := w0, Request := req } sc v).body =
      "Error encoding JSON response\n" := by
  obtain ⟨h1, h2, h3⟩ := ContextJSON_failure w0 req sc v hfresh henc
  refine ⟨h1, h2, ?_⟩
  rw [h3, hbody]
  rfl

/-- C5 witness: the amended failure contract at the concrete inputs. -/
theorem C5_witness :
    (Context.JSON { Writer := ResponseWriter.fresh, Request := ⟨"POST", "/users"⟩ } 201
      .unsupported).statusCalls = [201, 500] ∧
    (Context.JSON { Writer := ResponseWriter.fresh, Request := ⟨"POST", "/users"⟩ } 201
      .unsupported).effStatus = 201 ∧
    (Context.JSON { Writer := ResponseWriter.fresh, Request := ⟨"POST", "/users"⟩ } 201
      .unsupported).body = "Error encoding JSON response\n" :=
  C5_serialization_failure ResponseWriter.fresh ⟨"POST", "/users"⟩ 201 .unsupported
    rfl rfl (by simp [encodeGo])

/-- C6: with the application routes registered, dispatching GET /health
produces status 200 and a body that deserializes to the JSON object with
"status": "ok" and "service": "HTTPGolang_Server" (keys emitted in sorted
order), deep-equal to the handler's payload map. -/
theorem C6_health_endpoint :
    (appRouter.ServeHTTP applyHandler ResponseWriter.fresh
      ⟨"GET", "/health"⟩).writer.effStatus = 200 ∧
    decodeJson (appRouter.ServeHTTP applyHandler ResponseWriter.fresh
      ⟨"GET", "/health"⟩).writer.body = some healthJson ∧
    deepEqual (decodeGo healthJson) healthPayload = true := by
  have hfind : appRouter.findHandler ⟨"GET", "/health"⟩ = some HealthCheckHandler := rfl
  rw [ServeHTTP_hit appRouter applyHandler ResponseWriter.fresh ⟨"GET", "/health"⟩
    HealthCheckHandler hfind]
  have happ : applyHandler HealthCheckHandler
      { Writer := ResponseWriter.fresh, Request := ⟨"GET", "/health"⟩ } =
      Context.JSON { Writer := ResponseWriter.fresh, Request := ⟨"GET", "/health"⟩ }
        200 healthPayload := rfl
  rw [happ, ContextJSON_success ResponseWriter.fresh ⟨"GET", "/health"⟩ 200 healthPayload
    healthJson rfl encode_healthPayload]
  refine ⟨rfl, ?_, rt_deep_val healthPayload healthJson wf_healthPayload encode_healthPayload⟩
  show decodeJson (ResponseWriter.fresh.body ++ String.mk (jRender healthJson ++ ['\n']))
    = some healthJson
  rw [show ResponseWriter.fresh.body ++ String.mk (jRender healthJson ++ ['\n'])
    = String.mk (jRender healthJson ++ ['\n']) from rfl]
  exact decodeJson_render healthJson
